import Mathlib

/-
Verification of the proposer layer: the windower delay computation
(vms/proposervm/proposer/windower.go) and the pre-fork block lineage rules
(vms/proposervm/pre_fork_block.go), shallowly embedded in Lean.
-/

namespace proposer

/-- Number of proposal windows offered under normal conditions
(`maxWindows = 5` in windower.go). -/
def maxWindows : Nat := 5

/-- Length of one proposal window in nanoseconds
(`windowDuration = 3 * time.Second` in windower.go). -/
def windowDuration : Nat := 3000000000

/-- Largest value representable in a 64-bit unsigned integer. -/
def maxUint64 : Nat := 2 ^ 64 - 1

/-- Entry of the validator snapshot: a validator identity together with its
stake weight (`validatorData` in windower.go).  Identities are modelled as
naturals, carrying the same total order as the 20-byte identifiers compared
bytewise. -/
structure validatorData where
  id : Nat
  weight : Nat
deriving DecidableEq

/-- Modelled from the spec: overflow-checked 64-bit unsigned addition
(`utils/math.Add64`, outside src/) — an error instead of a wrapped total
whenever the exact sum exceeds the 64-bit unsigned maximum. -/
def Add64 (a b : Nat) : Option Nat :=
  if a + b ≤ maxUint64 then some (a + b) else none

/-- Accumulation of the total snapshot weight with overflow-checked addition,
as the conversion loop of Delay performs it (windower.go lines 56-67): the
weights are folded left to right in snapshot order, aborting on overflow. -/
def sumWeights (acc : Nat) : List validatorData → Option Nat
  | [] => some acc
  | v :: rest =>
    match Add64 acc v.weight with
    | none => none
    | some w => sumWeights w rest

/-- Canonical ordering of the snapshot: ascending sort by validator identity
(windower.go line 73, `sort.Sort(validators)` with `Less` comparing ids). -/
def canonicalSort (l : List validatorData) : List validatorData :=
  List.insertionSort (fun a b => a.id ≤ b.id) l

/-- Conversion of a uint64 value to a 64-bit signed integer, as the Go
expression `int(weight)` performs it at windower.go line 86: values of 2^63
and above wrap around to a negative integer. -/
def int64ofUint64 (w : Nat) : Int :=
  if w < 2 ^ 63 then (w : Int) else (w : Int) - 2 ^ 64

/-- Number of indices requested from the sampler (windower.go lines 84-88):
`maxWindows`, replaced by `int(weight)` when the total weight exceeds it.
The uint64-to-int conversion truncates, so totals of 2^63 and above produce
a negative requested count. -/
def numToSample (weight : Nat) : Int :=
  if maxWindows < weight then int64ofUint64 weight else (maxWindows : Int)

/-- Population of weight units starting at index `i`: position `k` of the
weight sequence contributes `ws[k]` consecutive slots owned by index `i+k`. -/
def unitPop (i : Nat) : List Nat → List Nat
  | [] => []
  | w :: rest => List.replicate w i ++ unitPop (i + 1) rest

/-- Modelled from the spec: the conceptual sampling population over weight
units — a validator with weight w occupies w slots. -/
def unitPopulation (ws : List Nat) : List Nat := unitPop 0 ws

/-- Modelled from the spec: contract of the deterministic weighted sampler
without replacement (`sampler.NewDeterministicWeightedWithoutReplacement`,
outside src/).  Given the ordered weight sequence, a seed and a requested
count, the sampler deterministically permutes the weight-unit population and
returns the owning indices of the first `count` units, capped at the
population size; a `none` result models an error return from the sampler
calls.  The spec defines the behavior only for non-negative requested
counts, so the contract leaves a sampler unconstrained on the negative
counts that the uint64-to-int truncation can produce. -/
def SamplerValid (sample : List Nat → Nat → Int → Option (List Nat)) : Prop :=
  ∀ ws seed count, 0 ≤ count → ∃ perm : List Nat,
    perm.Perm (unitPopulation ws) ∧
      sample ws seed count = some (perm.take count.toNat)

/-- Fallback entry for out-of-range indexing in the walk; the sampler
contract keeps every returned index in range, so it is never consulted in the
verified configurations. -/
def dummyValidator : validatorData := ⟨0, 0⟩

/-- Walk of the sampled index sequence (windower.go lines 96-104): one window
of delay is accumulated per sampled index until an index owned by the
requested validator is reached. -/
def delayWalk (vs : List validatorData) (validatorID : Nat) :
    List Nat → Nat → Nat
  | [], delay => delay
  | index :: rest, delay =>
    if (vs.getD index dummyValidator).id = validatorID then delay
    else delayWalk vs validatorID rest (delay + windowDuration)

/-- Delay computation (windower.go lines 47-105) after the validator-set
fetch: the snapshot is the list of (identity, weight) pairs in map iteration
order, `sample` is the sampler.  `none` models the error return, from the
checked summation or from the sampler calls; otherwise the result is the
computed delay in nanoseconds. -/
def Delay (sample : List Nat → Nat → Int → Option (List Nat))
    (snapshot : List validatorData) (chainHeight : Nat)
    (validatorID : Nat) : Option Nat :=
  match sumWeights 0 snapshot with
  | none => none
  | some weight =>
    match sample ((canonicalSort snapshot).map (fun v => v.weight)) chainHeight
        (numToSample weight) with
    | none => none
    | some indices =>
      some (delayWalk (canonicalSort snapshot) validatorID indices 0)

/-- Sampler instance realizing the contract with the identity permutation of
the weight-unit population. -/
def idSample (ws : List Nat) (_seed : Nat) (count : Int) : Option (List Nat) :=
  some ((unitPopulation ws).take count.toNat)

/-- Sampler instance realizing the contract with the reversed permutation of
the weight-unit population. -/
def revSample (ws : List Nat) (_seed : Nat) (count : Int) : Option (List Nat) :=
  some ((unitPopulation ws).reverse.take count.toNat)

/-- Sampler instance realizing the contract with the identity permutation on
non-negative requested counts and an error on negative ones. -/
def errNegSample (ws : List Nat) (_seed : Nat) (count : Int) :
    Option (List Nat) :=
  if count < 0 then none else some ((unitPopulation ws).take count.toNat)

theorem idSample_valid : SamplerValid idSample := by
  intro ws seed count hc
  exact ⟨unitPopulation ws, List.Perm.refl _, rfl⟩

theorem revSample_valid : SamplerValid revSample := by
  intro ws seed count hc
  exact ⟨(unitPopulation ws).reverse, (unitPopulation ws).reverse_perm, rfl⟩

theorem errNegSample_valid : SamplerValid errNegSample := by
  intro ws seed count hc
  refine ⟨unitPopulation ws, List.Perm.refl _, ?_⟩
  unfold errNegSample
  rw [if_neg (by omega)]

theorem sumWeights_eq (l : List validatorData) : ∀ acc : Nat, acc ≤ maxUint64 →
    sumWeights acc l =
      if acc + (l.map (fun v => v.weight)).sum ≤ maxUint64 then
        some (acc + (l.map (fun v => v.weight)).sum)
      else none := by
  induction l with
  | nil =>
    intro acc hacc
    simp only [sumWeights, List.map_nil, List.sum_nil, Nat.add_zero]
    rw [if_pos hacc]
  | cons v rest ih =>
    intro acc hacc
    simp only [List.map_cons, List.sum_cons]
    by_cases h : acc + v.weight ≤ maxUint64
    · have hstep : sumWeights acc (v :: rest) = sumWeights (acc + v.weight) rest := by
        show (match Add64 acc v.weight with
          | none => none
          | some w => sumWeights w rest) = sumWeights (acc + v.weight) rest
        rw [Add64, if_pos h]
      rw [hstep, ih (acc + v.weight) h]
      have hassoc : acc + v.weight + (rest.map (fun v => v.weight)).sum
          = acc + (v.weight + (rest.map (fun v => v.weight)).sum) := by omega
      rw [hassoc]
    · have hstep : sumWeights acc (v :: rest) = none := by
        show (match Add64 acc v.weight with
          | none => none
          | some w => sumWeights w rest) = none
        rw [Add64, if_neg h]
      rw [hstep, if_neg (by omega)]

theorem canonicalSort_perm (l : List validatorData) :
    (canonicalSort l).Perm l :=
  List.perm_insertionSort _ l

instance : IsTotal validatorData (fun a b => a.id ≤ b.id) :=
  ⟨fun a b => Nat.le_total a.id b.id⟩

instance : IsTrans validatorData (fun a b => a.id ≤ b.id) :=
  ⟨fun _ _ _ h h2 => Nat.le_trans h h2⟩

instance : IsAntisymm validatorData (fun a b => a.id < b.id) :=
  ⟨fun _ _ h h2 => absurd (Nat.lt_trans h h2) (Nat.lt_irrefl _)⟩

theorem canonicalSort_sorted (l : List validatorData) :
    (canonicalSort l).Sorted (fun a b => a.id ≤ b.id) :=
  List.sorted_insertionSort _ l

theorem unitPop_length (ws : List Nat) : ∀ i, (unitPop i ws).length = ws.sum := by
  induction ws with
  | nil => intro i; simp [unitPop]
  | cons w rest ih =>
    intro i
    simp [unitPop, ih (i + 1)]

theorem unitPop_mem_lt (ws : List Nat) :
    ∀ i j, j ∈ unitPop i ws → i ≤ j ∧ j < i + ws.length := by
  induction ws with
  | nil => intro i j h; simp [unitPop] at h
  | cons w rest ih =>
    intro i j h
    simp only [unitPop, List.mem_append, List.eq_of_mem_replicate] at h
    rcases h with h | h
    · have : j = i := List.eq_of_mem_replicate h
      subst this
      simp only [List.length_cons]
      omega
    · have := ih (i + 1) j h
      simp only [List.length_cons]
      omega

theorem unitPop_mem_of_pos (ws : List Nat) :
    ∀ i k, k < ws.length → 0 < ws.getD k 0 → (i + k) ∈ unitPop i ws := by
  induction ws with
  | nil => intro i k h; simp at h
  | cons w rest ih =>
    intro i k hk hw
    cases k with
    | zero =>
      have hw0 : 0 < w := by simpa using hw
      simp only [unitPop, List.mem_append]
      left
      simp only [Nat.add_zero]
      exact List.mem_replicate.2 ⟨by omega, rfl⟩
    | succ k =>
      simp only [unitPop, List.mem_append]
      right
      have hk2 : k < rest.length := by simpa using Nat.lt_of_succ_lt_succ hk
      have hw2 : 0 < rest.getD k 0 := by simpa using hw
      have := ih (i + 1) k hk2 hw2
      have harith : i + (k + 1) = i + 1 + k := by omega
      rw [harith]
      exact this

theorem delayWalk_hit (vs : List validatorData) (vid : Nat) :
    ∀ (indices : List Nat) (d : Nat),
      (∃ i ∈ indices, (vs.getD i dummyValidator).id = vid) →
      ∃ k, delayWalk vs vid indices d = d + k * windowDuration ∧
        k < indices.length := by
  intro indices
  induction indices with
  | nil => intro d h; simp at h
  | cons i rest ih =>
    intro d h
    by_cases hi : (vs.getD i dummyValidator).id = vid
    · refine ⟨0, ?_, by simp⟩
      show (if (vs.getD i dummyValidator).id = vid then d
        else delayWalk vs vid rest (d + windowDuration)) = d + 0 * windowDuration
      rw [if_pos hi]
      omega
    · rcases h with ⟨j, hj, hjid⟩
      have hjrest : j ∈ rest := by
        rcases List.mem_cons.1 hj with h | h
        · exact absurd (h ▸ hjid) hi
        · exact h
      rcases ih (d + windowDuration) ⟨j, hjrest, hjid⟩ with ⟨k, hk, hklt⟩
      refine ⟨k + 1, ?_, by simpa using Nat.succ_lt_succ hklt⟩
      rw [delayWalk, if_neg hi, hk]
      ring

theorem delayWalk_miss (vs : List validatorData) (vid : Nat) :
    ∀ (indices : List Nat) (d : Nat),
      (∀ i ∈ indices, (vs.getD i dummyValidator).id ≠ vid) →
      delayWalk vs vid indices d = d + indices.length * windowDuration := by
  intro indices
  induction indices with
  | nil => intro d _; simp [delayWalk]
  | cons i rest ih =>
    intro d h
    rw [delayWalk, if_neg (h i (List.mem_cons_self i rest)),
      ih (d + windowDuration) (fun j hj => h j (List.mem_cons_of_mem i hj))]
    simp only [List.length_cons]
    ring

theorem sumWeights_some {l : List validatorData} {W : Nat}
    (hW : sumWeights 0 l = some W) :
    W = (l.map (fun v => v.weight)).sum ∧
      (l.map (fun v => v.weight)).sum ≤ maxUint64 := by
  rw [sumWeights_eq l 0 (Nat.zero_le _)] at hW
  by_cases h : 0 + (l.map (fun v => v.weight)).sum ≤ maxUint64
  · rw [if_pos h] at hW
    have h2 := Option.some.inj hW
    constructor <;> omega
  · rw [if_neg h] at hW
    exact absurd hW (by simp)

theorem canonicalSort_weight_sum (l : List validatorData) :
    (((canonicalSort l).map (fun v => v.weight)).sum : Nat)
      = ((l.map (fun v => v.weight)).sum : Nat) :=
  ((canonicalSort_perm l).map (fun v => v.weight)).sum_eq

theorem numToSample_of_lt {W : Nat} (h : W < 2 ^ 63) :
    numToSample W = (((if maxWindows < W then W else maxWindows) : Nat) : Int) := by
  unfold numToSample
  by_cases hc : maxWindows < W
  · rw [if_pos hc, if_pos hc]
    unfold int64ofUint64
    rw [if_pos h]
  · rw [if_neg hc, if_neg hc]

/-- Under the sampler contract, whenever the total weight is below 2^63 the
requested count is non-negative and at least the population size, so the
index sequence Delay walks is a full permutation of the weight-unit
population. -/
theorem sample_full {sample : List Nat → Nat → Int → Option (List Nat)}
    (hs : SamplerValid sample) {l : List validatorData} {W : Nat} (ch : Nat)
    (hW : sumWeights 0 l = some W) (hlt : W < 2 ^ 63) :
    ∃ perm : List Nat,
      perm.Perm (unitPopulation ((canonicalSort l).map (fun v => v.weight))) ∧
      sample ((canonicalSort l).map (fun v => v.weight)) ch (numToSample W)
        = some perm ∧
      perm.length = W := by
  have hnum := numToSample_of_lt hlt
  have hnonneg : 0 ≤ numToSample W := by
    rw [hnum]
    exact Int.natCast_nonneg _
  rcases hs ((canonicalSort l).map (fun v => v.weight)) ch (numToSample W)
    hnonneg with ⟨perm, hperm, heq⟩
  have hlen : perm.length = W := by
    rw [hperm.length_eq, unitPopulation, unitPop_length]
    rw [canonicalSort_weight_sum l]
    exact ((sumWeights_some hW).1).symm
  have hle : perm.length ≤ (numToSample W).toNat := by
    rw [hlen, hnum, Int.toNat_natCast]
    unfold maxWindows
    split <;> omega
  refine ⟨perm, hperm, ?_, hlen⟩
  rw [heq, List.take_of_length_le hle]

theorem unitPopulation_mem_lt {ws : List Nat} {j : Nat}
    (h : j ∈ unitPopulation ws) : j < ws.length := by
  have := unitPop_mem_lt ws 0 j h
  omega

/-- Claim C1 (amended).  For every snapshot whose total weight is below 2^63
(so the uint64-to-int conversion of the requested count at windower.go line
86 is exact) and in which validatorID holds positive weight, and every
sampler satisfying the deterministic-permutation contract, Delay terminates
and returns a finite duration that is a non-negative integer multiple of 3
seconds, strictly less than totalWeight × 3s when the total weight is at
most 5, and bounded by totalWeight × 3s otherwise. -/
theorem claim_C1 (sample : List Nat → Nat → Int → Option (List Nat))
    (hs : SamplerValid sample) (l : List validatorData) (W ch vid : Nat)
    (v : validatorData) (hW : sumWeights 0 l = some W) (hlt : W < 2 ^ 63)
    (hv : v ∈ l) (hid : v.id = vid) (hw : 0 < v.weight) :
    ∃ d : Nat, Delay sample l ch vid = some d ∧
      (∃ k : Nat, d = k * windowDuration) ∧
      (W ≤ maxWindows → d < W * windowDuration) ∧
      (maxWindows < W → d ≤ W * windowDuration) := by
  rcases sample_full hs ch hW hlt with ⟨perm, hperm, heq, hlen⟩
  have hvs : v ∈ canonicalSort l := ((canonicalSort_perm l).mem_iff).2 hv
  rcases List.mem_iff_getElem.1 hvs with ⟨k0, hk0, hget⟩
  have hk0w : k0 < ((canonicalSort l).map (fun v => v.weight)).length := by
    simpa using hk0
  have hgetw : ((canonicalSort l).map (fun v => v.weight)).getD k0 0
      = v.weight := by
    rw [List.getD_eq_getElem _ _ hk0w, List.getElem_map, hget]
  have hk0mem : k0 ∈ unitPopulation ((canonicalSort l).map (fun v => v.weight)) := by
    have := unitPop_mem_of_pos ((canonicalSort l).map (fun v => v.weight)) 0 k0
      hk0w (by rw [hgetw]; exact hw)
    simpa using this
  have hhit : ((canonicalSort l).getD k0 dummyValidator).id = vid := by
    rw [List.getD_eq_getElem _ _ hk0, hget, hid]
  rcases delayWalk_hit (canonicalSort l) vid perm 0
      ⟨k0, hperm.mem_iff.2 hk0mem, hhit⟩ with ⟨k, hkeq, hklt⟩
  have hD : Delay sample l ch vid
      = some (delayWalk (canonicalSort l) vid perm 0) := by
    simp only [Delay, hW, heq]
  refine ⟨k * windowDuration, by rw [hD, hkeq]; ring_nf, ⟨k, rfl⟩, ?_, ?_⟩
  · intro _
    exact Nat.mul_lt_mul_of_lt_of_le (by omega) (Nat.le_refl _) (by decide)
  · intro _
    exact Nat.mul_le_mul_right _ (by omega)

/-- Witness for claim C1 at the snapshot {1:1, 2:1, 3:1}, chain height 42,
validator 2. -/
theorem claim_C1_witness :
    ∃ d : Nat, Delay idSample [⟨1, 1⟩, ⟨2, 1⟩, ⟨3, 1⟩] 42 2 = some d ∧
      (∃ k : Nat, d = k * windowDuration) ∧
      (3 ≤ maxWindows → d < 3 * windowDuration) ∧
      (maxWindows < 3 → d ≤ 3 * windowDuration) :=
  claim_C1 idSample idSample_valid [⟨1, 1⟩, ⟨2, 1⟩, ⟨3, 1⟩] 3 42 2 ⟨2, 1⟩
    (by decide) (by decide) (by decide) rfl (by decide)

/-- Counterexample to claim C1 as stated: the snapshot {1:1, 2:4} has total
weight 5 ≤ 5 and 2 distinct validators, yet under a sampler satisfying the
deterministic-permutation contract (the reversed unit permutation) validator
1 — which holds positive weight — receives a delay of 12s, not strictly less
than 2 × 3s. -/
theorem claim_C1_counterexample :
    SamplerValid revSample ∧
    sumWeights 0 [⟨1, 1⟩, ⟨2, 4⟩] = some 5 ∧
    Delay revSample [⟨1, 1⟩, ⟨2, 4⟩] 0 1 = some (4 * windowDuration) ∧
    ¬ 4 * windowDuration < 2 * windowDuration :=
  ⟨revSample_valid, by decide, by decide, by decide⟩

/-- Claim C2.  Delay is deterministic: two invocations on the same sampler,
snapshot, chain height and validator return the identical result. -/
theorem claim_C2 (sample : List Nat → Nat → Int → Option (List Nat))
    (l : List validatorData) (ch vid : Nat) (d₁ d₂ : Option Nat)
    (h₁ : Delay sample l ch vid = d₁) (h₂ : Delay sample l ch vid = d₂) :
    d₁ = d₂ := by
  rw [h₁] at h₂
  exact h₂

/-- Witness for claim C2 at the snapshot {1:1}, chain height 7. -/
theorem claim_C2_witness : Delay idSample [⟨1, 1⟩] 7 1 = some 0 :=
  claim_C2 idSample [⟨1, 1⟩] 7 1 (Delay idSample [⟨1, 1⟩] 7 1) (some 0) rfl
    (by decide)

/-- Claim C3 (amended).  In every Delay call where the total weight is below
2^63, the number of indices requested from the sampler equals
max(5, totalWeight): `numToSample` computes exactly that value, and the
Delay result depends on the sampler only through its response to a request
of max(5, totalWeight) indices.  For totals of 2^63 and above the
uint64-to-int conversion at windower.go line 86 wraps, and the requested
count is the negative int64(totalWeight) instead. -/
theorem claim_C3 (s₁ s₂ : List Nat → Nat → Int → Option (List Nat))
    (l : List validatorData) (W ch vid : Nat)
    (hW : sumWeights 0 l = some W) (hlt : W < 2 ^ 63)
    (hagree : s₁ ((canonicalSort l).map (fun v => v.weight)) ch
          ((max 5 W : Nat) : Int)
        = s₂ ((canonicalSort l).map (fun v => v.weight)) ch
          ((max 5 W : Nat) : Int)) :
    numToSample W = ((max 5 W : Nat) : Int) ∧
      Delay s₁ l ch vid = Delay s₂ l ch vid := by
  have hmax : (if maxWindows < W then W else maxWindows) = max 5 W := by
    simp only [maxWindows, Nat.max_def]
    split <;> split <;> omega
  have hnum : numToSample W = ((max 5 W : Nat) : Int) := by
    rw [numToSample_of_lt hlt, hmax]
  refine ⟨hnum, ?_⟩
  simp only [Delay, hW]
  rw [hnum, hagree]

/-- Witness for claim C3 at the snapshot {1:1, 2:1, 3:1}. -/
theorem claim_C3_witness :
    numToSample 3 = ((max 5 3 : Nat) : Int) ∧
      Delay idSample [⟨1, 1⟩, ⟨2, 1⟩, ⟨3, 1⟩] 42 2
        = Delay idSample [⟨1, 1⟩, ⟨2, 1⟩, ⟨3, 1⟩] 42 2 :=
  claim_C3 idSample idSample [⟨1, 1⟩, ⟨2, 1⟩, ⟨3, 1⟩] 3 42 2 (by decide)
    (by decide) rfl

/-- Counterexample to claim C3 as stated: for the snapshot {1: 2^63} the
total weight 2^63 sums without 64-bit overflow, yet the count Delay passes
to the sampler is the wrapped int64 value -2^63, not max(5, 2^63); two
contract-satisfying samplers that agree on a request of max(5, 2^63)
indices (and on every non-negative request) give different Delay results,
so the sampler is not asked for max(5, totalWeight) indices. -/
theorem claim_C3_counterexample :
    sumWeights 0 [⟨1, 2 ^ 63⟩] = some (2 ^ 63) ∧
    numToSample (2 ^ 63) = -(2 ^ 63) ∧
    ¬ numToSample (2 ^ 63) = ((max 5 (2 ^ 63) : Nat) : Int) ∧
    idSample [2 ^ 63] 0 ((max 5 (2 ^ 63) : Nat) : Int)
      = errNegSample [2 ^ 63] 0 ((max 5 (2 ^ 63) : Nat) : Int) ∧
    SamplerValid idSample ∧ SamplerValid errNegSample ∧
    ¬ Delay idSample [⟨1, 2 ^ 63⟩] 0 1 = Delay errNegSample [⟨1, 2 ^ 63⟩] 0 1 := by
  refine ⟨by decide, by decide, by decide, ?_, idSample_valid,
    errNegSample_valid, by decide⟩
  unfold idSample errNegSample
  rw [if_neg (by decide)]

/-- Claim C4 (amended).  For snapshots whose total weight is below 2^63 (so
the requested count does not wrap), when validatorID never appears in the
sampled sequence — in particular when it is absent from the snapshot — Delay
returns the fully accumulated delay of (number of sampled indices) × 3s with
no error, and that number of sampled indices equals the total weight. -/
theorem claim_C4 (sample : List Nat → Nat → Int → Option (List Nat))
    (hs : SamplerValid sample) (l : List validatorData) (W ch vid : Nat)
    (hW : sumWeights 0 l = some W) (hlt : W < 2 ^ 63)
    (habs : ∀ v ∈ l, v.id ≠ vid) :
    ∃ indices : List Nat,
      sample ((canonicalSort l).map (fun v => v.weight)) ch (numToSample W)
        = some indices ∧
      indices.length = W ∧
      Delay sample l ch vid = some (indices.length * windowDuration) := by
  rcases sample_full hs ch hW hlt with ⟨perm, hperm, heq, hlen⟩
  have hmiss : ∀ i ∈ perm,
      ((canonicalSort l).getD i dummyValidator).id ≠ vid := by
    intro i hi
    have himem : i ∈ unitPopulation ((canonicalSort l).map (fun v => v.weight)) :=
      hperm.mem_iff.1 hi
    have hilt : i < (canonicalSort l).length := by
      have := unitPopulation_mem_lt himem
      simpa using this
    rw [List.getD_eq_getElem _ _ hilt]
    have hmem2 : (canonicalSort l)[i] ∈ l :=
      (canonicalSort_perm l).mem_iff.1 (List.getElem_mem _)
    exact habs _ hmem2
  have hD : Delay sample l ch vid
      = some (delayWalk (canonicalSort l) vid perm 0) := by
    simp only [Delay, hW, heq]
  refine ⟨perm, heq, hlen, ?_⟩
  rw [hD, delayWalk_miss (canonicalSort l) vid perm 0 hmiss]
  ring_nf

/-- Witness for claim C4: the identity 9, absent from the snapshot
{1:1, 2:1, 3:1}, receives the fully-accumulated delay of 3 sampled indices,
9s. -/
theorem claim_C4_witness :
    ∃ indices : List Nat,
      idSample ((canonicalSort [⟨1, 1⟩, ⟨2, 1⟩, ⟨3, 1⟩]).map
          (fun v => v.weight)) 42 (numToSample 3) = some indices ∧
      indices.length = 3 ∧
      Delay idSample [⟨1, 1⟩, ⟨2, 1⟩, ⟨3, 1⟩] 42 9
        = some (indices.length * windowDuration) :=
  claim_C4 idSample idSample_valid [⟨1, 1⟩, ⟨2, 1⟩, ⟨3, 1⟩] 3 42 9
    (by decide) (by decide) (by decide)

/-- Counterexample to claim C4 as stated: for the snapshot {1: 2^63} — whose
weights sum without 64-bit overflow — and the absent identity 9, a sampler
satisfying the deterministic-permutation contract but returning an error on
the wrapped negative count int64(2^63) makes Delay return an error, not the
fully-accumulated delay with no error. -/
theorem claim_C4_counterexample :
    SamplerValid errNegSample ∧
    sumWeights 0 [⟨1, 2 ^ 63⟩] = some (2 ^ 63) ∧
    ([⟨1, 2 ^ 63⟩] : List validatorData).all (fun v => v.id ≠ 9) = true ∧
    Delay errNegSample [⟨1, 2 ^ 63⟩] 0 9 = none :=
  ⟨errNegSample_valid, by decide, by decide, by decide⟩

/-- Claim C5.  Delay is invariant under the iteration order of the snapshot
map: two snapshots with the same (identity, weight) pairs produce the same
canonical ordering and the same Delay result. -/
theorem claim_C5 (l₁ l₂ : List validatorData) (hperm : l₁.Perm l₂)
    (hnd : (l₁.map (fun v => v.id)).Nodup)
    (sample : List Nat → Nat → Int → Option (List Nat)) (ch vid : Nat) :
    canonicalSort l₁ = canonicalSort l₂ ∧
      Delay sample l₁ ch vid = Delay sample l₂ ch vid := by
  have hp : (canonicalSort l₁).Perm (canonicalSort l₂) :=
    (canonicalSort_perm l₁).trans (hperm.trans (canonicalSort_perm l₂).symm)
  have hnd₁ : ((canonicalSort l₁).map (fun v => v.id)).Nodup :=
    (((canonicalSort_perm l₁).map (fun v => v.id)).nodup_iff).2 hnd
  have hnd₂ : ((canonicalSort l₂).map (fun v => v.id)).Nodup :=
    ((hp.map (fun v => v.id)).nodup_iff).1 hnd₁
  have hstrict : ∀ m : List validatorData,
      m.Sorted (fun a b => a.id ≤ b.id) → (m.map (fun v => v.id)).Nodup →
      m.Sorted (fun a b => a.id < b.id) := by
    intro m hsorted hndm
    have hne : m.Pairwise (fun a b => a.id ≠ b.id) := List.pairwise_map.1 hndm
    exact (hsorted.and hne).imp (fun h => Nat.lt_of_le_of_ne h.1 h.2)
  have hsort : canonicalSort l₁ = canonicalSort l₂ :=
    List.eq_of_perm_of_sorted hp
      (hstrict _ (canonicalSort_sorted l₁) hnd₁)
      (hstrict _ (canonicalSort_sorted l₂) hnd₂)
  refine ⟨hsort, ?_⟩
  have hsum : sumWeights 0 l₁ = sumWeights 0 l₂ := by
    rw [sumWeights_eq l₁ 0 (Nat.zero_le _), sumWeights_eq l₂ 0 (Nat.zero_le _),
      (hperm.map (fun v => v.weight)).sum_eq]
  unfold Delay
  rw [hsum, hsort]

/-- Witness for claim C5 on two orderings of the snapshot {1:1, 2:2}. -/
theorem claim_C5_witness :
    canonicalSort [⟨1, 1⟩, ⟨2, 2⟩] = canonicalSort [⟨2, 2⟩, ⟨1, 1⟩] ∧
      Delay idSample [⟨1, 1⟩, ⟨2, 2⟩] 5 1
        = Delay idSample [⟨2, 2⟩, ⟨1, 1⟩] 5 1 :=
  claim_C5 [⟨1, 1⟩, ⟨2, 2⟩] [⟨2, 2⟩, ⟨1, 1⟩] (by decide) (by decide) idSample
    5 1

/-- Claim C6.  Summing weights past the 64-bit unsigned maximum makes Delay
return an error, never a wrapped total; whenever the checked summation
succeeds, the accumulated total equals the exact mathematical sum. -/
theorem claim_C6 (sample : List Nat → Nat → Int → Option (List Nat))
    (l : List validatorData) (ch vid W : Nat) :
    (maxUint64 < (l.map (fun v => v.weight)).sum →
      Delay sample l ch vid = none) ∧
    (sumWeights 0 l = some W → W = (l.map (fun v => v.weight)).sum) := by
  constructor
  · intro hover
    have hnone : sumWeights 0 l = none := by
      rw [sumWeights_eq l 0 (Nat.zero_le _), if_neg (by omega)]
    simp only [Delay, hnone]
  · intro hW
    exact (sumWeights_some hW).1

/-- Witness for claim C6: two weights of 2^63 each overflow and produce an
error; the snapshot {1:1, 2:2} sums exactly to 3. -/
theorem claim_C6_witness :
    Delay idSample [⟨1, 2 ^ 63⟩, ⟨2, 2 ^ 63⟩] 0 1 = none ∧
      (3 : Nat) = (([⟨1, 1⟩, ⟨2, 2⟩] : List validatorData).map
        (fun v => v.weight)).sum :=
  ⟨(claim_C6 idSample [⟨1, 2 ^ 63⟩, ⟨2, 2 ^ 63⟩] 0 1 0).1 (by decide),
    (claim_C6 idSample [⟨1, 1⟩, ⟨2, 2⟩] 0 1 3).2 (by decide)⟩

end proposer

namespace proposervm

/-- Rejection reasons of the pre-fork lineage rules (pre_fork_block.go).
Collaborator failures that the code propagates verbatim are tagged by the
call site that produced them. -/
inductive VErr where
  | unexpectedBlockType
  | pChainHeightNotReached
  | pChainHeightTooLow
  | innerParentMismatch
  | proposersNotActivated
  | timeNotMonotonic
  | timeTooAdvanced
  | currentHeightFailure
  | lastAcceptedFailure
  | signatureFailure
  | innerVerifyFailure
deriving DecidableEq

/-- Result of the last-accepted lookup of the orchestrator (`vm.GetLastAccepted`):
a block identity, the expected not-found outcome, or any other lookup
failure. -/
inductive Lookup where
  | found : Nat → Lookup
  | notFound : Lookup
  | failed : Lookup
deriving DecidableEq

/-- State of the pre-fork parent block, its verification environment and the
candidate post-fork child, as consulted by pre_fork_block.go.  Block
identities are modelled as naturals; timestamps as integers (nanoseconds);
collaborator results (current-height lookup, signature verification, inner
verification) appear as the values those calls return. -/
structure PreForkEnv where
  parentID : Nat
  parentInnerID : Nat
  parentTimestamp : Int
  parentStatusAccepted : Bool
  parentIsOracle : Bool
  lastAccepted : Lookup
  activationTime : Int
  minimumPChainHeight : Nat
  maxSkew : Int
  vmTime : Int
  currentPChainHeight : Option Nat
  childID : Nat
  childPChainHeight : Nat
  childTimestamp : Int
  childInnerID : Nat
  childInnerParentID : Nat
  sigVerifyNoSig : Option VErr
  innerVerify : Option VErr
deriving DecidableEq

/-- Shared verification caches owned by the orchestrator: the set of inner
blocks already verified (`vm.Tree`) and the index of verified outer blocks
(`vm.verifiedBlocks`), both by identity. -/
structure CacheState where
  tree : List Nat
  verifiedBlocks : List Nat
deriving DecidableEq

/-- Outcome of a verification attempt: the rejection reason (`none` for
success), the updated caches, and how many times the inner
`Verify` entry point of the wrapped chain was invoked. -/
structure VerifyOutcome where
  result : Option VErr
  state : CacheState
  innerVerifyCalls : Nat
deriving DecidableEq

/-- Modelled from the spec: `verifyIsNotOracleBlock` (outside src/) — the
parent must be a single-branch, non-bifurcating block, otherwise the child
committal would be ambiguous. -/
def verifyIsNotOracleBlock (isOracle : Bool) : Option VErr :=
  if isOracle then some VErr.unexpectedBlockType else none

/-- Invariant check that this block really is a pre-fork block
(pre_fork_block.go lines 217-237): an accepted pre-fork block must not
coexist with an accepted post-fork block reachable through the last-accepted
pointer (not-found is the expected outcome; other lookup failures
propagate); the inner block of an unaccepted pre-fork block must not already be
in the verified-inner-block set. -/
def verifyIsPreForkBlock (env : PreForkEnv) (tree : List Nat) : Option VErr :=
  if env.parentStatusAccepted then
    match env.lastAccepted with
    | Lookup.found _ => some VErr.unexpectedBlockType
    | Lookup.notFound => none
    | Lookup.failed => some VErr.lastAcceptedFailure
  else if env.parentInnerID ∈ tree then some VErr.unexpectedBlockType
  else none

/-- Idempotent inner-block verification (pre_fork_block.go lines 147-153):
when the inner block is already recorded verified the wrapped chain is not
consulted; otherwise the Verify of the wrapped chain runs and, on success, the
inner block is recorded.  Returns (step result, updated set, number of inner
Verify invocations). -/
def verifyInnerCached (tree : List Nat) (innerID : Nat)
    (innerVerify : Option VErr) : Option VErr × List Nat × Nat :=
  if innerID ∈ tree then (none, tree, 0)
  else
    match innerVerify with
    | some e => (some e, tree, 1)
    | none => (none, innerID :: tree, 1)

/-- Verification of a post-fork child of a pre-fork block
(pre_fork_block.go lines 86-156), with every check in source order: oracle
exclusion, pre-fork invariant, current-height lookup and bounds, inner
parent linkage, activation gate, timestamp monotonicity, clock-skew bound,
absent-signature verification, idempotent inner verification, and
registration of the verified child. -/
def verifyPostForkChild (env : PreForkEnv) (st : CacheState) : VerifyOutcome :=
  match verifyIsNotOracleBlock env.parentIsOracle with
  | some e => ⟨some e, st, 0⟩
  | none =>
    match verifyIsPreForkBlock env st.tree with
    | some e => ⟨some e, st, 0⟩
    | none =>
      match env.currentPChainHeight with
      | none => ⟨some VErr.currentHeightFailure, st, 0⟩
      | some cur =>
        if env.childPChainHeight > cur then
          ⟨some VErr.pChainHeightNotReached, st, 0⟩
        else if env.childPChainHeight < env.minimumPChainHeight then
          ⟨some VErr.pChainHeightTooLow, st, 0⟩
        else if env.childInnerParentID ≠ env.parentID then
          ⟨some VErr.innerParentMismatch, st, 0⟩
        else if env.parentTimestamp < env.activationTime then
          ⟨some VErr.proposersNotActivated, st, 0⟩
        else if env.childTimestamp < env.parentTimestamp then
          ⟨some VErr.timeNotMonotonic, st, 0⟩
        else if env.childTimestamp > env.vmTime + env.maxSkew then
          ⟨some VErr.timeTooAdvanced, st, 0⟩
        else
          match env.sigVerifyNoSig with
          | some e => ⟨some e, st, 0⟩
          | none =>
            match verifyInnerCached st.tree env.childInnerID env.innerVerify with
            | (some e, tree2, calls) =>
              ⟨some e, ⟨tree2, st.verifiedBlocks⟩, calls⟩
            | (none, tree2, calls) =>
              ⟨none, ⟨tree2, env.childID :: st.verifiedBlocks⟩, calls⟩

/-- Verification of a post-fork-option child of a pre-fork block
(pre_fork_block.go lines 158-160): rejected unconditionally with the
unexpected-block-type error. -/
def verifyPostForkOption (_env : PreForkEnv) (_childID : Nat) : Option VErr :=
  some VErr.unexpectedBlockType

/-- Historical-validator-set height reported by a pre-fork block
(pre_fork_block.go lines 213-215): always height 0 with no error. -/
def pChainHeight (_env : PreForkEnv) : Except VErr Nat :=
  Except.ok 0

theorem verifyInnerCached_mem {tree : List Nat} {cid : Nat}
    (iv : Option VErr) (h : cid ∈ tree) :
    verifyInnerCached tree cid iv = (none, tree, 0) := by
  unfold verifyInnerCached
  rw [if_pos h]

theorem verifyInnerCached_new {tree : List Nat} {cid : Nat}
    (h : cid ∉ tree) :
    verifyInnerCached tree cid none = (none, cid :: tree, 1) := by
  unfold verifyInnerCached
  rw [if_neg h]

theorem verifyPostForkChild_calls (env : PreForkEnv) (st : CacheState) :
    (verifyPostForkChild env st).innerVerifyCalls = 0 ∨
    (verifyPostForkChild env st).innerVerifyCalls
      = (verifyInnerCached st.tree env.childInnerID env.innerVerify).2.2 := by
  unfold verifyPostForkChild
  repeat' split
  all_goals simp_all

theorem verifyPostForkChild_tree (env : PreForkEnv) (st : CacheState) :
    (verifyPostForkChild env st).state.tree = st.tree ∨
    (verifyPostForkChild env st).state.tree
      = (verifyInnerCached st.tree env.childInnerID env.innerVerify).2.1 := by
  unfold verifyPostForkChild
  repeat' split
  all_goals simp_all

theorem verifyPostForkChild_calls_zero (env : PreForkEnv) (st : CacheState)
    (hmem : env.childInnerID ∈ st.tree) :
    (verifyPostForkChild env st).innerVerifyCalls = 0 := by
  rcases verifyPostForkChild_calls env st with h | h
  · exact h
  · rw [h, verifyInnerCached_mem env.innerVerify hmem]

theorem verifyPostForkChild_tree_stable (env : PreForkEnv) (st : CacheState)
    (hmem : env.childInnerID ∈ st.tree) :
    (verifyPostForkChild env st).state.tree = st.tree := by
  rcases verifyPostForkChild_tree env st with h | h
  · exact h
  · rw [h, verifyInnerCached_mem env.innerVerify hmem]

/-- Claim C7.  A pre-fork block whose timestamp is before the configured
activation time rejects every post-fork child attempt: verification never
succeeds, and when the preceding oracle, pre-fork-invariant, height-bound
and linkage checks pass the rejection is exactly errProposersNotActivated. -/
theorem claim_C7 (env : PreForkEnv) (st : CacheState)
    (hpre : env.parentTimestamp < env.activationTime) :
    (verifyPostForkChild env st).result ≠ none ∧
    (verifyIsNotOracleBlock env.parentIsOracle = none →
      verifyIsPreForkBlock env st.tree = none →
      ∀ cur : Nat, env.currentPChainHeight = some cur →
      env.childPChainHeight ≤ cur →
      env.minimumPChainHeight ≤ env.childPChainHeight →
      env.childInnerParentID = env.parentID →
      (verifyPostForkChild env st).result
        = some VErr.proposersNotActivated) := by
  constructor
  · unfold verifyPostForkChild
    repeat' split
    all_goals first | (exfalso; omega) | simp
  · intro h1 h2 cur hcur hle hmin hlink
    simp only [verifyPostForkChild, h1, h2, hcur]
    have hA : ¬ env.childPChainHeight > cur := by omega
    have hB : ¬ env.childPChainHeight < env.minimumPChainHeight := by omega
    have hC : ¬ env.childInnerParentID ≠ env.parentID := by simp [hlink]
    rw [if_neg hA, if_neg hB, if_neg hC, if_pos hpre]

/-- Configuration for the claim C7 witness: a pre-fork parent with timestamp
0, activation time 100, and a child passing every check preceding the
activation gate. -/
def envC7 : PreForkEnv :=
  { parentID := 1
    parentInnerID := 10
    parentTimestamp := 0
    parentStatusAccepted := false
    parentIsOracle := false
    lastAccepted := Lookup.notFound
    activationTime := 100
    minimumPChainHeight := 1
    maxSkew := 10
    vmTime := 0
    currentPChainHeight := some 5
    childID := 2
    childPChainHeight := 3
    childTimestamp := 0
    childInnerID := 11
    childInnerParentID := 1
    sigVerifyNoSig := none
    innerVerify := none }

/-- Witness for claim C7: the concrete pre-activation configuration is
rejected with errProposersNotActivated. -/
theorem claim_C7_witness :
    (verifyPostForkChild envC7 ⟨[], []⟩).result
        = some VErr.proposersNotActivated ∧
      (verifyPostForkChild envC7 ⟨[], []⟩).result ≠ none := by
  have h := claim_C7 envC7 ⟨[], []⟩ (by decide)
  exact ⟨h.2 (by decide) (by decide) 5 (by decide) (by decide) (by decide)
    (by decide), h.1⟩

/-- Claim C8.  A pre-fork block rejects every post-fork-option child
unconditionally with the unexpected-block-type error, regardless of
timestamps, heights or any other state. -/
theorem claim_C8 (env : PreForkEnv) (childID : Nat) :
    verifyPostForkOption env childID = some VErr.unexpectedBlockType := rfl

/-- Claim C9.  Inner-block verification is idempotent: an inner block already
in the verified set makes the cached step succeed without invoking the
Verify of the wrapped chain; an unrecorded inner block whose Verify succeeds is
recorded; and two successive post-fork-child verifications wrapping the same
already-verified inner block invoke Verify zero times, hence at most once
total. -/
theorem claim_C9 (env1 env2 : PreForkEnv) (st : CacheState)
    (tree2 : List Nat) (cid2 : Nat)
    (hmem : env1.childInnerID ∈ st.tree)
    (hsame : env2.childInnerID = env1.childInnerID)
    (hnm : cid2 ∉ tree2) :
    (∀ iv : Option VErr,
      verifyInnerCached st.tree env1.childInnerID iv = (none, st.tree, 0)) ∧
    verifyInnerCached tree2 cid2 none = (none, cid2 :: tree2, 1) ∧
    (verifyPostForkChild env1 st).innerVerifyCalls = 0 ∧
    (verifyPostForkChild env2
      (verifyPostForkChild env1 st).state).innerVerifyCalls = 0 ∧
    (verifyPostForkChild env1 st).innerVerifyCalls +
      (verifyPostForkChild env2
        (verifyPostForkChild env1 st).state).innerVerifyCalls ≤ 1 := by
  have hmem2 : env2.childInnerID ∈ (verifyPostForkChild env1 st).state.tree := by
    rw [verifyPostForkChild_tree_stable env1 st hmem, hsame]
    exact hmem
  have hc1 := verifyPostForkChild_calls_zero env1 st hmem
  have hc2 := verifyPostForkChild_calls_zero env2 _ hmem2
  exact ⟨fun iv => verifyInnerCached_mem iv hmem, verifyInnerCached_new hnm,
    hc1, hc2, by omega⟩

/-- First child configuration for the claim C9 witness: wraps the
already-verified inner block 11. -/
def envC9a : PreForkEnv :=
  { envC7 with
    parentTimestamp := 100
    childTimestamp := 100
    vmTime := 100 }

/-- Second child configuration for the claim C9 witness: a distinct child
wrapping the same inner block 11. -/
def envC9b : PreForkEnv :=
  { envC9a with childID := 3 }

/-- Witness for claim C9 at a cache whose verified-inner set holds inner
block 11. -/
theorem claim_C9_witness :
    verifyInnerCached [11] 11 (some VErr.innerVerifyFailure)
        = (none, [11], 0) ∧
      verifyInnerCached [] 5 none = (none, [5], 1) ∧
      (verifyPostForkChild envC9a ⟨[11], []⟩).innerVerifyCalls = 0 ∧
      (verifyPostForkChild envC9b
        (verifyPostForkChild envC9a ⟨[11], []⟩).state).innerVerifyCalls = 0 ∧
      (verifyPostForkChild envC9a ⟨[11], []⟩).innerVerifyCalls +
        (verifyPostForkChild envC9b
          (verifyPostForkChild envC9a ⟨[11], []⟩).state).innerVerifyCalls
        ≤ 1 := by
  have h := claim_C9 envC9a envC9b ⟨[11], []⟩ [] 5 (by decide) (by decide)
    (by decide)
  exact ⟨h.1 (some VErr.innerVerifyFailure), h.2.1, h.2.2.1, h.2.2.2.1,
    h.2.2.2.2⟩

/-- Claim C10.  A pre-fork block always reports a historical-validator-set
height of 0 with no error at the shared block interface (pChainHeight),
even though verifyPostForkChild requires a child to declare a height of at
least the configured minimum. -/
theorem claim_C10 (env : PreForkEnv) : pChainHeight env = Except.ok 0 := rfl

end proposervm
